import Mathlib

/-!
Shallow embedding of the numerical core of the Raikoke figure scripts
(src/Figure3.py, src/Figure4.py, src/Figure7.py, src/Figure8.py):

* latitude-weighted, not-a-number-aware band averaging
  (`np.ma.average(np.ma.masked_invalid(F[120:, :]), axis = 0, weights = weighting[120:])`),
* cross-grid masking (`mask = np.ones(shape); mask[np.isnan(ref)] = np.nan; target * mask`),
* the e-folding decay-time estimator (`find_nearest`, `e_folding_time`).

Conventions of the embedding: a floating-point cell that may be not-a-number
is an `Option` value over a linear ordered field, with `none` as the
not-a-number sentinel; machine floats are modelled by exact field arithmetic;
code that raises a Python exception is modelled with `Except String`.
Fields are lists of rows (outer index latitude, inner index day), matching
the `(181, T)` arrays of the scripts.
-/

section Averaging

variable {α : Type} [LinearOrderedField α]

/-- Valid weighted samples of one column: the pairs of a weight and a value
whose cell is not the not-a-number sentinel.  This models the sample
selection performed by `np.ma.masked_invalid` before `np.ma.average`. -/
def validPairs (w : List α) (xs : List (Option α)) : List (α × α) :=
  (w.zip xs).filterMap (fun p => p.2.map (fun v => (p.1, v)))

/-- Semantics of `np.ma.average(np.ma.masked_invalid(xs), weights = w)` along
one column: the weighted mean of the valid samples.  When the valid weight
total is zero, in particular when every sample of the column is
not-a-number, the masked-array division yields a masked element, i.e. a
not-a-number result and no error. -/
def maskedAverage (w : List α) (xs : List (Option α)) : Option α :=
  if ((validPairs w xs).map Prod.fst).sum = 0 then none
  else some (((validPairs w xs).map (fun p => p.1 * p.2)).sum
      / ((validPairs w xs).map Prod.fst).sum)

/-- Column `j` of a grid stored as a list of rows; an out-of-range access is
treated as a not-a-number cell (this never happens on the rectangular arrays
of the scripts). -/
def column (g : List (List (Option α))) (j : ℕ) : List (Option α) :=
  g.map (fun row => (row[j]?).getD none)

/-- Python slice `xs[b:]` for a nonnegative start index: the start is clipped
to the length of the sequence, so an out-of-range start yields the empty
list rather than an error. -/
def pySliceFrom (b : ℕ) (xs : List β) : List β :=
  xs.drop (min b xs.length)

/-- The banded weighted average
`np.ma.average(np.ma.masked_invalid(g[b:, :]), axis = 0, weights = w[b:])`
at output index `j`.  The scripts use `b = 120` (the 30N..90N sub-band of a
-90..90 one-degree latitude axis). -/
def bandAverage (w : List α) (b : ℕ) (g : List (List (Option α))) (j : ℕ) : Option α :=
  maskedAverage (pySliceFrom b w) (column (pySliceFrom b g) j)

/-- `omps_area_average` (src/Figure3.py line 52); the same expression
computes `so2_ash_masked_mean` and its variants (src/Figure7.py lines 84-88,
src/Figure8.py lines 65-72).  The weight list `w` stands for
`np.cos(np.deg2rad(latitude))`; every weight the band `120:` selects is a
strictly positive number in the machine arithmetic of the source. -/
def omps_area_average (w : List α) (g : List (List (Option α))) (j : ℕ) : Option α :=
  bandAverage w 120 g j

lemma pySliceFrom_eq_drop (b : ℕ) (xs : List β) : pySliceFrom b xs = xs.drop b := by
  unfold pySliceFrom
  rcases le_total b xs.length with h | h
  · rw [min_eq_left h]
  · rw [min_eq_right h, List.drop_length, Eq.comm, List.drop_eq_nil_of_le h]

@[simp] lemma validPairs_nil_left (xs : List (Option α)) : validPairs ([] : List α) xs = [] := by
  simp [validPairs]

@[simp] lemma validPairs_nil_right (w : List α) : validPairs w [] = [] := by
  simp [validPairs]

lemma validPairs_cons_none (a : α) (w : List α) (xs : List (Option α)) :
    validPairs (a :: w) (none :: xs) = validPairs w xs := by
  simp [validPairs, List.zip_cons_cons, List.filterMap_cons]

lemma validPairs_cons_some (a v : α) (w : List α) (xs : List (Option α)) :
    validPairs (a :: w) (some v :: xs) = (a, v) :: validPairs w xs := by
  simp [validPairs, List.zip_cons_cons, List.filterMap_cons]

lemma den_eq_zipWith (w : List α) (xs : List (Option α)) :
    ((validPairs w xs).map Prod.fst).sum
      = (List.zipWith (fun a c => Option.elim c 0 (fun _ => a)) w xs).sum := by
  induction w generalizing xs with
  | nil => simp
  | cons a w ih =>
    cases xs with
    | nil => simp
    | cons c xs =>
      cases c with
      | none => simpa [validPairs_cons_none] using ih xs
      | some v => simp [validPairs_cons_some, ih xs]

lemma num_eq_zipWith (w : List α) (xs : List (Option α)) :
    ((validPairs w xs).map (fun p => p.1 * p.2)).sum
      = (List.zipWith (fun a c => Option.elim c 0 (fun v => a * v)) w xs).sum := by
  induction w generalizing xs with
  | nil => simp
  | cons a w ih =>
    cases xs with
    | nil => simp
    | cons c xs =>
      cases c with
      | none => simpa [validPairs_cons_none] using ih xs
      | some v => simp [validPairs_cons_some, ih xs]

lemma validPairs_eq_nil_of_all_none (w : List α) (xs : List (Option α))
    (h : ∀ c ∈ xs, c = none) : validPairs w xs = [] := by
  induction w generalizing xs with
  | nil => simp
  | cons a w ih =>
    cases xs with
    | nil => simp
    | cons c xs =>
      have hc : c = none := h c (List.mem_cons_self c xs)
      subst hc
      rw [validPairs_cons_none]
      exact ih xs (fun c hc => h c (List.mem_cons_of_mem _ hc))

lemma mem_validPairs {w : List α} {xs : List (Option α)} {p : α × α}
    (hp : p ∈ validPairs w xs) : p.1 ∈ w ∧ p.2 ∈ xs.filterMap id := by
  unfold validPairs at hp
  rcases List.mem_filterMap.mp hp with ⟨q, hq, hmap⟩
  rcases h2 : q.2 with _ | v
  · rw [h2] at hmap; simp at hmap
  · rw [h2] at hmap
    simp only [Option.map_some'] at hmap
    have hz := List.of_mem_zip hq
    cases hmap
    refine ⟨hz.1, ?_⟩
    exact List.mem_filterMap.mpr ⟨some v, h2 ▸ hz.2, rfl⟩

lemma den_nonneg (w : List α) (xs : List (Option α)) (hpos : ∀ a ∈ w, 0 < a) :
    0 ≤ ((validPairs w xs).map Prod.fst).sum := by
  apply List.sum_nonneg
  intro x hx
  rcases List.mem_map.mp hx with ⟨p, hp, rfl⟩
  exact le_of_lt (hpos p.1 (mem_validPairs hp).1)

lemma den_pos (w : List α) (xs : List (Option α)) (hlen : w.length = xs.length)
    (hpos : ∀ a ∈ w, 0 < a) (hex : ∃ c ∈ xs, c ≠ none) :
    0 < ((validPairs w xs).map Prod.fst).sum := by
  induction w generalizing xs with
  | nil =>
    cases xs with
    | nil => simp at hex
    | cons c xs => simp at hlen
  | cons a w ih =>
    cases xs with
    | nil => simp at hex
    | cons c xs =>
      have hlen' : w.length = xs.length := by simpa using hlen
      have hpos' : ∀ b ∈ w, 0 < b := fun b hb => hpos b (List.mem_cons_of_mem _ hb)
      cases c with
      | none =>
        rw [validPairs_cons_none]
        apply ih xs hlen' hpos'
        rcases hex with ⟨c, hc, hcne⟩
        rcases List.mem_cons.mp hc with h | h
        · exact absurd h hcne
        · exact ⟨c, h, hcne⟩
      | some v =>
        rw [validPairs_cons_some]
        simp only [List.map_cons, List.sum_cons]
        have h1 : 0 < a := hpos a (List.mem_cons_self a w)
        have h2 : 0 ≤ ((validPairs w xs).map Prod.fst).sum := den_nonneg w xs hpos'
        linarith

lemma maskedAverage_eq_none_iff (w : List α) (xs : List (Option α))
    (hlen : w.length = xs.length) (hpos : ∀ a ∈ w, 0 < a) :
    maskedAverage w xs = none ↔ ∀ c ∈ xs, c = none := by
  constructor
  · intro h
    by_contra hall
    push_neg at hall
    have hd := den_pos w xs hlen hpos hall
    rw [maskedAverage, if_neg (ne_of_gt hd)] at h
    exact Option.some_ne_none _ h
  · intro hall
    rw [maskedAverage, if_pos]
    rw [validPairs_eq_nil_of_all_none w xs hall]
    simp

lemma maskedAverage_eq_some (w : List α) (xs : List (Option α))
    (hlen : w.length = xs.length) (hpos : ∀ a ∈ w, 0 < a)
    (hex : ∃ c ∈ xs, c ≠ none) :
    maskedAverage w xs
      = some ((List.zipWith (fun a c => Option.elim c 0 (fun v => a * v)) w xs).sum
          / (List.zipWith (fun a c => Option.elim c 0 (fun _ => a)) w xs).sum) := by
  have hd := den_pos w xs hlen hpos hex
  rw [maskedAverage, if_neg (ne_of_gt hd), num_eq_zipWith, den_eq_zipWith]

@[simp] lemma column_length (g : List (List (Option α))) (j : ℕ) :
    (column g j).length = g.length := by
  simp [column]

lemma sum_map_mul_const (l : List (α × α)) (M : α) :
    (l.map (fun p => p.1 * M)).sum = ((l.map Prod.fst).sum) * M := by
  induction l with
  | nil => simp
  | cons p l ih => simp [ih, add_mul]

/-- Claim C1: for every field with a latitude axis aligned to the -90..90
axis and the fixed 30N..90N band (indices 120 onward), and every output
index, the latitude-weighted average equals the weighted sum of the valid
(non not-a-number) samples of the band divided by the sum of their weights;
if every sample of the band is not-a-number at that index, the output is
not-a-number, and no error is raised (the embedding is a total function).
The weight list is abstract here: the concrete weights of the source,
`np.cos(np.deg2rad(range(-90, 91)))[120:]`, are strictly positive machine
numbers, which is hypothesis `hpos`. -/
theorem spec_c1 {α : Type} [LinearOrderedField α] (w : List α)
    (g : List (List (Option α))) (j : ℕ)
    (hlen : (w.drop 120).length = (g.drop 120).length)
    (hpos : ∀ a ∈ w.drop 120, 0 < a) :
    (omps_area_average w g j = none ↔ ∀ c ∈ column (g.drop 120) j, c = none)
    ∧ ((∃ c ∈ column (g.drop 120) j, c ≠ none) →
      omps_area_average w g j
        = some ((List.zipWith (fun a c => Option.elim c 0 (fun v => a * v))
              (w.drop 120) (column (g.drop 120) j)).sum
            / (List.zipWith (fun a c => Option.elim c 0 (fun _ => a))
              (w.drop 120) (column (g.drop 120) j)).sum)) := by
  have hlen' : (w.drop 120).length = (column (g.drop 120) j).length := by
    rw [column_length]; exact hlen
  constructor
  · rw [omps_area_average, bandAverage, pySliceFrom_eq_drop, pySliceFrom_eq_drop]
    exact maskedAverage_eq_none_iff _ _ hlen' hpos
  · intro hex
    rw [omps_area_average, bandAverage, pySliceFrom_eq_drop, pySliceFrom_eq_drop]
    exact maskedAverage_eq_some _ _ hlen' hpos hex

/-- Witness for C1 on a concrete 122-row grid whose band holds one valid and
one not-a-number sample: the average evaluates to the single valid value. -/
theorem spec_c1_witness :
    omps_area_average (List.replicate 120 (0:ℚ) ++ [1, 2])
      (List.replicate 120 ([] : List (Option ℚ)) ++ [[some 3], [none]]) 0 = some 3 := by
  have h := spec_c1 (List.replicate 120 (0:ℚ) ++ [1, 2])
      (List.replicate 120 ([] : List (Option ℚ)) ++ [[some 3], [none]]) 0
      (by decide) (by decide)
  have h2 := h.2 (by decide)
  rw [h2]
  norm_num [column]

/-- Claim C7: when every output index has at least one valid latitude sample
in the band, the banded average returns a finite (non not-a-number) value
lying between any lower bound and any upper bound of the valid samples of
the band, hence between their minimum and their maximum. -/
theorem spec_c7 {α : Type} [LinearOrderedField α] (w : List α)
    (g : List (List (Option α))) (j : ℕ)
    (hlen : (w.drop 120).length = (g.drop 120).length)
    (hpos : ∀ a ∈ w.drop 120, 0 < a)
    (hex : ∃ c ∈ column (g.drop 120) j, c ≠ none) :
    ∃ v, omps_area_average w g j = some v
      ∧ ∀ m M, (∀ x ∈ (column (g.drop 120) j).filterMap id, m ≤ x ∧ x ≤ M) →
          m ≤ v ∧ v ≤ M := by
  have hlen' : (w.drop 120).length = (column (g.drop 120) j).length := by
    rw [column_length]; exact hlen
  have hd := den_pos _ _ hlen' hpos hex
  refine ⟨((validPairs (w.drop 120) (column (g.drop 120) j)).map (fun p => p.1 * p.2)).sum
      / ((validPairs (w.drop 120) (column (g.drop 120) j)).map Prod.fst).sum, ?_, ?_⟩
  · rw [omps_area_average, bandAverage, pySliceFrom_eq_drop, pySliceFrom_eq_drop,
      maskedAverage, if_neg (ne_of_gt hd)]
  · intro m M hb
    constructor
    · rw [le_div_iff₀ hd]
      have hle : ((validPairs (w.drop 120) (column (g.drop 120) j)).map (fun p => p.1 * m)).sum
          ≤ ((validPairs (w.drop 120) (column (g.drop 120) j)).map (fun p => p.1 * p.2)).sum := by
        apply List.sum_le_sum
        intro p hp
        exact mul_le_mul_of_nonneg_left (hb p.2 (mem_validPairs hp).2).1
          (le_of_lt (hpos p.1 (mem_validPairs hp).1))
      calc m * ((validPairs (w.drop 120) (column (g.drop 120) j)).map Prod.fst).sum
          = ((validPairs (w.drop 120) (column (g.drop 120) j)).map (fun p => p.1 * m)).sum := by
            rw [sum_map_mul_const]; ring
        _ ≤ _ := hle
    · rw [div_le_iff₀ hd]
      have hle : ((validPairs (w.drop 120) (column (g.drop 120) j)).map (fun p => p.1 * p.2)).sum
          ≤ ((validPairs (w.drop 120) (column (g.drop 120) j)).map (fun p => p.1 * M)).sum := by
        apply List.sum_le_sum
        intro p hp
        exact mul_le_mul_of_nonneg_left (hb p.2 (mem_validPairs hp).2).2
          (le_of_lt (hpos p.1 (mem_validPairs hp).1))
      calc ((validPairs (w.drop 120) (column (g.drop 120) j)).map (fun p => p.1 * p.2)).sum
          ≤ ((validPairs (w.drop 120) (column (g.drop 120) j)).map (fun p => p.1 * M)).sum := hle
        _ = M * ((validPairs (w.drop 120) (column (g.drop 120) j)).map Prod.fst).sum := by
            rw [sum_map_mul_const]; ring

/-- Witness for C7 on a concrete band with two valid samples 3 and 5. -/
theorem spec_c7_witness :
    ∃ v, omps_area_average (List.replicate 120 (0:ℚ) ++ [1, 2])
        (List.replicate 120 ([] : List (Option ℚ)) ++ [[some 3], [some 5]]) 0 = some v
      ∧ ∀ m M, (∀ x ∈ (column ((List.replicate 120 ([] : List (Option ℚ))
            ++ [[some 3], [some 5]]).drop 120) 0).filterMap id, m ≤ x ∧ x ≤ M) →
          m ≤ v ∧ v ≤ M :=
  spec_c7 _ _ 0 (by decide) (by decide) (by decide)

/-- Claim C8: for every band start index, including one beyond the end of
the latitude axis, the banded average raises no error: the slice clips to
the axis exactly as `List.drop` does, the operation is a total function,
and an empty (fully out-of-range) band yields a not-a-number output. -/
theorem spec_c8 {α : Type} [LinearOrderedField α] (w : List α)
    (g : List (List (Option α))) (j b : ℕ) :
    bandAverage w b g j = maskedAverage (w.drop b) (column (g.drop b) j)
    ∧ (g.length ≤ b → bandAverage w b g j = none) := by
  constructor
  · rw [bandAverage, pySliceFrom_eq_drop, pySliceFrom_eq_drop]
  · intro hb
    rw [bandAverage, pySliceFrom_eq_drop, pySliceFrom_eq_drop, List.drop_eq_nil_of_le hb]
    simp [column, maskedAverage]

/-- Witness for C8: a band start of 2 on a one-row grid clips to an empty
band and completes with a not-a-number output instead of an error. -/
theorem spec_c8_witness :
    bandAverage [(1:ℚ)] 2 [[some 1]] 0 = none :=
  (spec_c8 [(1:ℚ)] [[some 1]] 0 2).2 (by decide)

end Averaging

section ListFacts

variable {γ δ : Type}

lemma getD_of_lt (l : List γ) (i : ℕ) (h : i < l.length) (d d' : γ) :
    l.getD i d = l.getD i d' := by
  rw [List.getD_eq_getElem?_getD, List.getElem?_eq_getElem h,
    List.getD_eq_getElem?_getD, List.getElem?_eq_getElem h]
  simp

lemma getD_eq_getElem (l : List γ) (i : ℕ) (h : i < l.length) (d : γ) :
    l.getD i d = l[i] := by
  rw [List.getD_eq_getElem?_getD, List.getElem?_eq_getElem h, Option.getD_some]

lemma getD_map_of_lt (f : γ → δ) (l : List γ) (j : ℕ) (h : j < l.length)
    (d : δ) (dl : γ) : (l.map f).getD j d = f (l.getD j dl) := by
  rw [getD_eq_getElem _ _ (by simpa using h) d, List.getElem_map,
    getD_eq_getElem _ _ h]

lemma getD_drop_of_lt (l : List γ) (m i : ℕ) (h : m + i < l.length) (d : γ) :
    (l.drop m).getD i d = l.getD (m + i) d := by
  rw [getD_eq_getElem _ _ (by rw [List.length_drop]; omega) d,
    getD_eq_getElem _ _ h, List.getElem_drop]

lemma mem_range'_bounds {s n t : ℕ} (ht : t ∈ List.range' s n) : s ≤ t ∧ t < s + n := by
  rw [List.mem_range'] at ht
  obtain ⟨i, hi, rfl⟩ := ht
  omega

end ListFacts

section ArgMin

variable {β : Type} [LinearOrder β]

/-- First index of a minimal element of a list (0 for the empty list): the
semantics of `np.argmin`, which resolves ties to the earliest index. -/
def argminIdx : List β → ℕ
  | [] => 0
  | x :: xs => if xs.getD (argminIdx xs) x < x then argminIdx xs + 1 else 0

lemma argminIdx_lt_length (l : List β) (h : l ≠ []) : argminIdx l < l.length := by
  induction l with
  | nil => exact absurd rfl h
  | cons x xs ih =>
    simp only [argminIdx]
    split
    · rename_i hlt
      have hxs : xs ≠ [] := by
        rintro rfl
        rw [List.getD_nil] at hlt
        exact absurd hlt (lt_irrefl x)
      have := ih hxs
      simp only [List.length_cons]
      omega
    · simp

lemma argminIdx_le (l : List β) :
    ∀ (d : β) (j : ℕ), j < l.length → l.getD (argminIdx l) d ≤ l.getD j d := by
  induction l with
  | nil => intro d j hj; simp at hj
  | cons x xs ih =>
    intro d j hj
    simp only [argminIdx]
    split
    · rename_i hlt
      have hxs : xs ≠ [] := by
        rintro rfl
        rw [List.getD_nil] at hlt
        exact absurd hlt (lt_irrefl x)
      have hax := argminIdx_lt_length xs hxs
      rw [List.getD_cons_succ]
      cases j with
      | zero =>
        rw [List.getD_cons_zero]
        calc xs.getD (argminIdx xs) d = xs.getD (argminIdx xs) x := getD_of_lt _ _ hax _ _
          _ ≤ x := le_of_lt hlt
      | succ k =>
        rw [List.getD_cons_succ]
        exact ih d k (by simpa using hj)
    · rename_i hge
      rw [List.getD_cons_zero]
      cases j with
      | zero => rw [List.getD_cons_zero]
      | succ k =>
        rw [List.getD_cons_succ]
        have hk : k < xs.length := by simpa using hj
        have hxs : xs ≠ [] := by rintro rfl; simp at hk
        have hax := argminIdx_lt_length xs hxs
        calc x ≤ xs.getD (argminIdx xs) x := not_lt.mp hge
          _ ≤ xs.getD k x := ih x k hk
          _ = xs.getD k d := getD_of_lt _ _ hk _ _

lemma argminIdx_first (l : List β) :
    ∀ (d : β) (j : ℕ), j < argminIdx l → l.getD (argminIdx l) d < l.getD j d := by
  induction l with
  | nil => intro d j hj; simp [argminIdx] at hj
  | cons x xs ih =>
    intro d j hj
    simp only [argminIdx] at hj ⊢
    by_cases hc : xs.getD (argminIdx xs) x < x
    · rw [if_pos hc] at hj ⊢
      have hxs : xs ≠ [] := by
        rintro rfl
        rw [List.getD_nil] at hc
        exact absurd hc (lt_irrefl x)
      have hax := argminIdx_lt_length xs hxs
      rw [List.getD_cons_succ]
      cases j with
      | zero =>
        rw [List.getD_cons_zero]
        calc xs.getD (argminIdx xs) d = xs.getD (argminIdx xs) x := getD_of_lt _ _ hax _ _
          _ < x := hc
      | succ k =>
        rw [List.getD_cons_succ]
        exact ih d k (by omega)
    · rw [if_neg hc] at hj
      exact absurd hj (Nat.not_lt_zero j)

lemma argminIdx_eq (l : List β) (d : β) (i : ℕ) (hi : i < l.length)
    (hmin : ∀ j, j < l.length → l.getD i d ≤ l.getD j d)
    (hfirst : ∀ j, j < i → l.getD i d < l.getD j d) : argminIdx l = i := by
  have hl : l ≠ [] := by rintro rfl; simp at hi
  have h1 := argminIdx_lt_length l hl
  rcases lt_trichotomy (argminIdx l) i with h | h | h
  · have ha := hfirst _ h
    have hb := argminIdx_le l d i hi
    exact absurd (lt_of_le_of_lt hb ha) (lt_irrefl _)
  · exact h
  · have ha := argminIdx_first l d i h
    have hb := hmin _ h1
    exact absurd (lt_of_le_of_lt hb ha) (lt_irrefl _)

lemma argminIdx_cons_replicate_of_lt {n : ℕ} (hn : 0 < n) {a b : β} (hba : b < a) :
    argminIdx (a :: List.replicate n b) = 1 := by
  have hget : ∀ k, (List.replicate n b).getD k b = b := by
    intro k
    rcases lt_or_ge k n with h | h
    · rw [getD_eq_getElem _ _ (by simpa using h), List.getElem_replicate]
    · rw [List.getD_eq_getElem?_getD, List.getElem?_eq_none (by simpa using h)]
      rfl
  refine argminIdx_eq _ b 1 (by simp; omega) ?_ ?_
  · intro j hj
    rw [List.getD_cons_succ, hget 0]
    cases j with
    | zero => rw [List.getD_cons_zero]; exact le_of_lt hba
    | succ k => rw [List.getD_cons_succ, hget k]
  · intro j hj
    have hj0 : j = 0 := by omega
    subst hj0
    rw [List.getD_cons_succ, hget 0, List.getD_cons_zero]
    exact hba

lemma le_foldl_max (x : β) (xs : List β) : ∀ y ∈ x :: xs, y ≤ xs.foldl max x := by
  induction xs generalizing x with
  | nil =>
    intro y hy
    rw [List.mem_singleton] at hy
    simp [hy]
  | cons a t ih =>
    intro y hy
    rw [List.foldl_cons]
    rcases List.mem_cons.mp hy with rfl | hy'
    · calc y ≤ max y a := le_max_left y a
        _ ≤ t.foldl max (max y a) := ih (max y a) _ (List.mem_cons_self _ _)
    · rcases List.mem_cons.mp hy' with rfl | hy''
      · calc y ≤ max x y := le_max_right x y
          _ ≤ t.foldl max (max x y) := ih (max x y) _ (List.mem_cons_self _ _)
      · exact ih (max x a) y (List.mem_cons_of_mem _ hy'')

lemma foldl_max_eq (x : β) (xs : List β) (h : ∀ y ∈ xs, y ≤ x) : xs.foldl max x = x := by
  induction xs generalizing x with
  | nil => rfl
  | cons a t ih =>
    rw [List.foldl_cons, max_eq_left (h a (List.mem_cons_self _ _))]
    exact ih x (fun y hy => h y (List.mem_cons_of_mem _ hy))

lemma foldl_max_mem (x : β) (xs : List β) : xs.foldl max x ∈ x :: xs := by
  induction xs generalizing x with
  | nil => exact List.mem_cons_self _ _
  | cons a t ih =>
    rw [List.foldl_cons]
    rcases List.mem_cons.mp (ih (max x a)) with h | h
    · rcases max_choice x a with h2 | h2 <;> rw [h, h2]
      · exact List.mem_cons_self _ _
      · exact List.mem_cons_of_mem _ (List.mem_cons_self _ _)
    · exact List.mem_cons_of_mem _ (List.mem_cons_of_mem _ h)

end ArgMin

section EFolding

variable {α : Type} [LinearOrderedField α]

/-- `find_nearest` (src/Figure3.py lines 61-66): the index of the entry of
`array` nearest to `value`, computed as `np.argmin(np.abs(array - value))`;
a tie resolves to the first such index, as `np.argmin` does. -/
def find_nearest (array : List α) (value : α) : ℕ :=
  argminIdx (array.map (fun x => |x - value|))

/-- Message of the `ValueError` that a numpy reduction such as `np.nanmax`
raises on a zero-size array; the failure mode the spec names
PreconditionViolation. -/
def emptyReductionError : String :=
  "PreconditionViolation: zero-size array to reduction operation"

/-- Search part of `e_folding_time` (src/Figure3.py lines 74-81) on the
already prepared, not-a-number free working segment: `np.nanmax` raises on
an empty segment and is the plain maximum otherwise; `x_max` is the index
nearest to the maximum, `x_e` the index at or after `x_max` nearest to the
maximum divided by `e`, and the result is `x_e - x_max`. -/
def decaySearch (e : α) (dc : List α) : Except String ℕ :=
  match dc with
  | [] => .error emptyReductionError
  | x :: xs =>
    let m := xs.foldl max x
    let x_max := find_nearest (x :: xs) m
    let x_e := x_max + find_nearest ((x :: xs).drop x_max) (m / e)
    .ok (x_e - x_max)

/-- Working copy built by `e_folding_time` (src/Figure3.py lines 70-72):
`data_copy = copy.copy(data[20:])` followed by setting every not-a-number
entry of the copy to zero. -/
def prepSegment (data : List (Option α)) : List α :=
  (data.drop 20).map (fun c => c.getD 0)

/-- `e_folding_time` (src/Figure3.py lines 68-81), with `e` the embedding of
`math.e`: slice away the first 20 samples (days before the eruption), zero
the not-a-number entries of a copy, and return `x_e - x_max`. -/
def e_folding_time (e : α) (data : List (Option α)) : Except String ℕ :=
  decaySearch e (prepSegment data)

/-- Modelled from the spec (section 4.3): the e-folding estimator as the
spec describes it, for comparison with the source behaviour in claim C6.
The onset discard is performed by the caller, so the whole received segment
is searched from its first index (no internal `data[20:]` slice) after the
not-a-number to zero replacement, and a segment of length 0 or 1 raises the
precondition error the spec requires. -/
def e_folding_spec (e : α) (data : List (Option α)) : Except String ℕ :=
  if data.length ≤ 1 then .error emptyReductionError
  else decaySearch e (data.map (fun c => c.getD 0))

/-- Claim C5: a decay segment of length 0 or 1 makes the estimator raise
(the internal slice `data[20:]` is empty, and the `np.nanmax` reduction on a
zero-size array raises the error the spec calls PreconditionViolation)
rather than return a numeric offset. -/
theorem spec_c5 {α : Type} [LinearOrderedField α] (e : α) (data : List (Option α))
    (h : data.length ≤ 1) :
    e_folding_time e data = .error emptyReductionError := by
  have h20 : data.drop 20 = [] := List.drop_eq_nil_of_le (le_trans h (by norm_num))
  rw [e_folding_time, prepSegment, h20]
  rfl

/-- Witness for C5 at the concrete length-1 segment `[1]`. -/
theorem spec_c5_witness :
    e_folding_time (2:ℚ) [some 1] = .error emptyReductionError :=
  spec_c5 2 [some 1] (by decide)

/-- Claim C6 (amended): the onset discard is performed inside the
estimator, not by the caller: `e_folding_time` first drops the fixed first
20 samples of the series it receives and then behaves exactly as the
spec component does on that post-onset remainder (whenever the remainder
has at least 2 samples, so that the spec precondition guard does not
fire). -/
theorem spec_c6 {α : Type} [LinearOrderedField α] (e : α) (data : List (Option α))
    (h2 : 2 ≤ (data.drop 20).length) :
    e_folding_time e data = e_folding_spec e (data.drop 20) := by
  rw [e_folding_spec, if_neg (by omega), e_folding_time, prepSegment]

/-- Witness for the amended C6 on a concrete constant series of 22 samples. -/
theorem spec_c6_witness :
    e_folding_time (2:ℚ) (List.replicate 22 (some (1:ℚ)))
      = e_folding_spec (2:ℚ) ((List.replicate 22 (some (1:ℚ))).drop 20) :=
  spec_c6 2 (List.replicate 22 (some 1)) (by decide)

/-- One mutable numpy buffer per identifier, with a bump allocator: the
fragment of the Python heap the estimator can reach. -/
structure NpState (α : Type) where
  heap : ℕ → List (Option α)
  next : ℕ

/-- Heap-level model of the body of `e_folding_time` on numpy buffers:
`data[20:]` is a view (no heap change), `copy.copy` allocates a fresh buffer
holding the contents of the view, the not-a-number to zero assignment
writes that fresh buffer in place, and the search reads only the copy.
Returns the result together with the final heap. -/
def e_folding_time_run (e : α) (σ : NpState α) (b : ℕ) : Except String ℕ × NpState α :=
  let c := σ.next
  let σ1 : NpState α :=
    ⟨fun i => if i = c then (σ.heap b).drop 20 else σ.heap i, σ.next + 1⟩
  let σ2 : NpState α :=
    ⟨fun i => if i = c then (σ1.heap c).map (fun v => some (v.getD 0)) else σ1.heap i, σ1.next⟩
  (decaySearch e ((σ2.heap c).map (fun v => v.getD 0)), σ2)

/-- Claim C10: the estimator never mutates its input: for every allocated
caller buffer, its contents after the call equal its contents before,
because the not-a-number replacement writes only the freshly allocated
copy; and the result computed on the copy is the result of the pure
function. -/
theorem spec_c10 {α : Type} [LinearOrderedField α] (e : α) (σ : NpState α) (b : ℕ)
    (hb : b < σ.next) :
    (e_folding_time_run e σ b).2.heap b = σ.heap b
    ∧ (e_folding_time_run e σ b).1 = e_folding_time e (σ.heap b) := by
  have hne : b ≠ σ.next := Nat.ne_of_lt hb
  constructor
  · simp [e_folding_time_run, if_neg hne]
  · simp [e_folding_time_run, e_folding_time, prepSegment, List.map_map, Function.comp_def]

/-- Concrete initial heap for the C10 witness: one caller buffer holding a
valid sample followed by a not-a-number sample. -/
def c10state : NpState ℚ := ⟨fun _ => [some 1, none], 1⟩

/-- Witness for C10 at the concrete heap `c10state`. -/
theorem spec_c10_witness :
    (e_folding_time_run (2:ℚ) c10state 0).2.heap 0 = c10state.heap 0
    ∧ (e_folding_time_run (2:ℚ) c10state 0).1 = e_folding_time 2 (c10state.heap 0) :=
  spec_c10 2 c10state 0 (by decide)

lemma find_nearest_lt_length (l : List α) (v : α) (hl : l ≠ []) :
    find_nearest l v < l.length := by
  have hm : l.map (fun x => |x - v|) ≠ [] := by simpa using hl
  have := argminIdx_lt_length (l.map (fun x => |x - v|)) hm
  simpa [find_nearest] using this

lemma find_nearest_le (l : List α) (v d : α) (j : ℕ) (hj : j < l.length) :
    |l.getD (find_nearest l v) d - v| ≤ |l.getD j d - v| := by
  have hl : l ≠ [] := by rintro rfl; simp at hj
  have hfl : argminIdx (l.map (fun x => |x - v|)) < l.length := by
    have := argminIdx_lt_length (l.map (fun x => |x - v|)) (by simpa using hl)
    simpa using this
  have h1 := argminIdx_le (l.map (fun x => |x - v|)) 0 j (by simpa using hj)
  rw [getD_map_of_lt _ _ _ hfl 0 d, getD_map_of_lt _ _ _ hj 0 d] at h1
  exact h1

lemma find_nearest_max_eq (x : α) (xs : List α) :
    (x :: xs).getD (find_nearest (x :: xs) (xs.foldl max x)) 0 = xs.foldl max x := by
  obtain ⟨k, hk, hkeq⟩ := List.mem_iff_getElem.mp (foldl_max_mem x xs)
  have hdk : (x :: xs).getD k 0 = xs.foldl max x := by
    rw [getD_eq_getElem _ _ hk]; exact hkeq
  have h1 := find_nearest_le (x :: xs) (xs.foldl max x) 0 k hk
  rw [hdk, sub_self, abs_zero] at h1
  have h2 : |(x :: xs).getD (find_nearest (x :: xs) (xs.foldl max x)) 0 - xs.foldl max x| = 0 :=
    le_antisymm h1 (abs_nonneg _)
  exact sub_eq_zero.mp (abs_eq_zero.mp h2)

/-- General half of claim C2: on every series whose working segment (the
post-slice, not-a-number-zeroed copy) is nonempty, the estimator returns
`x_e - x_max` where `x_max` is an index attaining the maximum of the
working segment and `x_e` is an index at or after `x_max` whose value is
nearest to that maximum divided by e among all indices at or after `x_max`
(nearest-value search, not a first threshold crossing). -/
lemma c2_general (data : List (Option ℝ)) (hne : prepSegment data ≠ []) :
    ∃ x_max x_e : ℕ,
      e_folding_time (Real.exp 1) data = .ok (x_e - x_max)
      ∧ x_max ≤ x_e
      ∧ x_max < (prepSegment data).length
      ∧ x_e < (prepSegment data).length
      ∧ (∀ j, j < (prepSegment data).length →
          (prepSegment data).getD j 0 ≤ (prepSegment data).getD x_max 0)
      ∧ (∀ j, x_max ≤ j → j < (prepSegment data).length →
          |(prepSegment data).getD x_e 0
              - (prepSegment data).getD x_max 0 / Real.exp 1|
            ≤ |(prepSegment data).getD j 0
              - (prepSegment data).getD x_max 0 / Real.exp 1|) := by
  obtain ⟨x, xs, hdc⟩ := List.exists_cons_of_ne_nil hne
  simp only [e_folding_time, hdc, decaySearch]
  have hxmaxlt : find_nearest (x :: xs) (xs.foldl max x) < (x :: xs).length :=
    find_nearest_lt_length _ _ (List.cons_ne_nil x xs)
  have hdropne : (x :: xs).drop (find_nearest (x :: xs) (xs.foldl max x)) ≠ [] := by
    apply List.ne_nil_of_length_pos
    rw [List.length_drop]
    omega
  have htlt := find_nearest_lt_length
    ((x :: xs).drop (find_nearest (x :: xs) (xs.foldl max x)))
    (xs.foldl max x / Real.exp 1) hdropne
  rw [List.length_drop] at htlt
  refine ⟨find_nearest (x :: xs) (xs.foldl max x),
    find_nearest (x :: xs) (xs.foldl max x)
      + find_nearest ((x :: xs).drop (find_nearest (x :: xs) (xs.foldl max x)))
        (xs.foldl max x / Real.exp 1), rfl, Nat.le_add_right _ _, hxmaxlt, by omega,
    ?_, ?_⟩
  · intro j hj
    rw [find_nearest_max_eq, getD_eq_getElem _ _ hj]
    exact le_foldl_max x xs _ (List.getElem_mem _)
  · intro j hjge hjlt
    rw [find_nearest_max_eq]
    have hk : find_nearest (x :: xs) (xs.foldl max x)
        + (j - find_nearest (x :: xs) (xs.foldl max x)) = j := by omega
    have h1 := find_nearest_le
      ((x :: xs).drop (find_nearest (x :: xs) (xs.foldl max x)))
      (xs.foldl max x / Real.exp 1) 0
      (j - find_nearest (x :: xs) (xs.foldl max x))
      (by rw [List.length_drop]; omega)
    rw [getD_drop_of_lt _ _ _ (by omega) 0, getD_drop_of_lt _ _ _ (by omega) 0, hk] at h1
    exact h1

/-- Sample of the synthetic test curve of the spec at integer time `t`:
`A * exp (-t / tau)` with `A = 10` and `tau = 5`. -/
noncomputable def synthSample (t : ℕ) : ℝ := 10 * Real.exp (-(t:ℝ)/5)

/-- The synthetic decay curve of the spec, sampled at `t = 0..50`. -/
noncomputable def synthCurve : List (Option ℝ) :=
  (List.range 51).map (fun t => some (synthSample t))

lemma c2_g_le (a b : ℕ) (hab : a ≤ b) : synthSample b ≤ synthSample a := by
  rw [synthSample, synthSample]
  have hc : (a:ℝ) ≤ b := Nat.cast_le.mpr hab
  have h := Real.exp_le_exp.mpr (by linarith : -(b:ℝ)/5 ≤ -(a:ℝ)/5)
  exact mul_le_mul_of_nonneg_left h (by norm_num)

lemma c2_g_inj (a b : ℕ) (h : synthSample a = synthSample b) : a = b := by
  rw [synthSample, synthSample] at h
  have h1 := mul_left_cancel₀ (by norm_num : (10:ℝ) ≠ 0) h
  have h2 := Real.exp_eq_exp.mp h1
  have h3 : (a:ℝ) = (b:ℝ) := by linarith
  exact_mod_cast h3

lemma c2_getD (j : ℕ) (hj : j < 31) (d : ℝ) :
    ((List.range' 20 31).map synthSample).getD j d = synthSample (20 + j) := by
  have hl : j < (List.range' 20 31).length := by simpa [List.length_range'] using hj
  rw [getD_map_of_lt _ _ _ hl d 0]
  congr 1
  rw [getD_eq_getElem _ _ hl]
  simpa using @List.getElem_range' 20 31 1 j (by simpa [List.length_range'] using hj)

lemma c2_dist_getD (v : ℝ) (j : ℕ) (hj : j < 31) :
    (((List.range' 20 31).map synthSample).map (fun x => |x - v|)).getD j 0
      = |synthSample (20 + j) - v| := by
  have hl : j < ((List.range' 20 31).map synthSample).length := by
    simpa [List.length_range'] using hj
  rw [getD_map_of_lt _ _ _ hl 0 0, c2_getD j hj 0]

lemma c2_max :
    ((List.range' 21 30).map synthSample).foldl max (synthSample 20) = synthSample 20 := by
  apply foldl_max_eq
  intro y hy
  obtain ⟨t, ht, rfl⟩ := List.mem_map.mp hy
  have hb := mem_range'_bounds ht
  exact c2_g_le 20 t (by omega)

lemma c2_xmax : find_nearest ((List.range' 20 31).map synthSample) (synthSample 20) = 0 := by
  show argminIdx (((List.range' 20 31).map synthSample).map
    (fun x => |x - synthSample 20|)) = 0
  refine argminIdx_eq _ 0 0 (by simp [List.length_range']) ?_ ?_
  · intro j hj
    have hj31 : j < 31 := by simpa [List.length_range'] using hj
    rw [c2_dist_getD _ 0 (by norm_num), c2_dist_getD _ j hj31]
    simp only [Nat.add_zero]
    rw [sub_self, abs_zero]
    exact abs_nonneg _
  · intro j hj
    exact absurd hj (Nat.not_lt_zero j)

lemma c2_thr : synthSample 20 / Real.exp 1 = synthSample 25 := by
  rw [synthSample, synthSample, mul_div_assoc, ← Real.exp_sub]
  have h : -((20:ℕ):ℝ)/5 - 1 = -((25:ℕ):ℝ)/5 := by push_cast; norm_num
  rw [h]

lemma c2_xe : find_nearest ((List.range' 20 31).map synthSample) (synthSample 25) = 5 := by
  show argminIdx (((List.range' 20 31).map synthSample).map
    (fun x => |x - synthSample 25|)) = 5
  refine argminIdx_eq _ 0 5 (by simp [List.length_range']) ?_ ?_
  · intro j hj
    have hj31 : j < 31 := by simpa [List.length_range'] using hj
    rw [c2_dist_getD _ 5 (by norm_num), c2_dist_getD _ j hj31]
    rw [show (20 + 5 : ℕ) = 25 from rfl, sub_self, abs_zero]
    exact abs_nonneg _
  · intro j hj
    have hj31 : j < 31 := by omega
    rw [c2_dist_getD _ 5 (by norm_num), c2_dist_getD _ j hj31]
    rw [show (20 + 5 : ℕ) = 25 from rfl, sub_self, abs_zero]
    apply abs_pos.mpr
    apply sub_ne_zero.mpr
    intro heq
    have := c2_g_inj (20 + j) 25 heq
    omega

/-- Synthetic half of claim C2: the estimator returns exactly 5 on the
synthetic curve. -/
lemma c2_synth_eval : e_folding_time (Real.exp 1) synthCurve = Except.ok 5 := by
  have hseg : prepSegment synthCurve = (List.range' 20 31).map synthSample := by
    rw [prepSegment, synthCurve, ← List.map_drop]
    have hr : (List.range 51).drop 20 = List.range' 20 31 := by decide
    rw [hr, List.map_map]
    simp [Function.comp_def]
  have hL : (List.range' 20 31).map synthSample
      = synthSample 20 :: (List.range' 21 30).map synthSample := by
    rw [show List.range' 20 31 = 20 :: List.range' 21 30 from by decide, List.map_cons]
  rw [e_folding_time, hseg, hL]
  simp only [decaySearch]
  rw [c2_max, ← hL, c2_xmax, c2_thr, List.drop_zero, c2_xe]

/-- Claim C2: the e-folding estimator returns the offset `x_e - x_max`
where `x_max` attains the maximum of the not-a-number-zeroed working
segment and `x_e` is an index at or after `x_max` whose value is nearest to
that maximum divided by e among all indices at or after `x_max`
(nearest-value search, not a first threshold crossing); in particular, on
the synthetic curve `f t = 10 * exp (-t/5)` sampled at integer `t = 0..50`
it returns exactly 5. -/
theorem spec_c2 :
    (∀ data : List (Option ℝ), prepSegment data ≠ [] →
      ∃ x_max x_e : ℕ,
        e_folding_time (Real.exp 1) data = .ok (x_e - x_max)
        ∧ x_max ≤ x_e
        ∧ x_max < (prepSegment data).length
        ∧ x_e < (prepSegment data).length
        ∧ (∀ j, j < (prepSegment data).length →
            (prepSegment data).getD j 0 ≤ (prepSegment data).getD x_max 0)
        ∧ (∀ j, x_max ≤ j → j < (prepSegment data).length →
            |(prepSegment data).getD x_e 0
                - (prepSegment data).getD x_max 0 / Real.exp 1|
              ≤ |(prepSegment data).getD j 0
                - (prepSegment data).getD x_max 0 / Real.exp 1|))
    ∧ e_folding_time (Real.exp 1) synthCurve = Except.ok 5 :=
  ⟨c2_general, c2_synth_eval⟩

/-- Witness for C2 at the concrete constant series of 21 valid samples. -/
theorem spec_c2_witness :
    prepSegment (List.replicate 21 (some (1:ℝ))) ≠ []
    ∧ ∃ x_max x_e : ℕ,
        e_folding_time (Real.exp 1) (List.replicate 21 (some (1:ℝ))) = .ok (x_e - x_max)
        ∧ x_max ≤ x_e
        ∧ x_max < (prepSegment (List.replicate 21 (some (1:ℝ)))).length
        ∧ x_e < (prepSegment (List.replicate 21 (some (1:ℝ)))).length
        ∧ (∀ j, j < (prepSegment (List.replicate 21 (some (1:ℝ)))).length →
            (prepSegment (List.replicate 21 (some (1:ℝ)))).getD j 0
              ≤ (prepSegment (List.replicate 21 (some (1:ℝ)))).getD x_max 0)
        ∧ (∀ j, x_max ≤ j → j < (prepSegment (List.replicate 21 (some (1:ℝ)))).length →
            |(prepSegment (List.replicate 21 (some (1:ℝ)))).getD x_e 0
                - (prepSegment (List.replicate 21 (some (1:ℝ)))).getD x_max 0 / Real.exp 1|
              ≤ |(prepSegment (List.replicate 21 (some (1:ℝ)))).getD j 0
                - (prepSegment (List.replicate 21 (some (1:ℝ)))).getD x_max 0 / Real.exp 1|) := by
  have hne : prepSegment (List.replicate 21 (some (1:ℝ))) ≠ [] := by
    rw [show prepSegment (List.replicate 21 (some (1:ℝ))) = [1] from rfl]
    exact List.cons_ne_nil 1 []
  exact ⟨hne, spec_c2.1 _ hne⟩

lemma find_nearest_singleton (y v : α) : find_nearest [y] v = 0 := by
  show argminIdx [|y - v|] = 0
  simp [argminIdx, List.getD_nil]

/-- Concrete series refuting claim C6 as stated: a spike of 2 at index 0
followed by 20 zero samples. -/
def c6data : List (Option ℝ) := some 2 :: List.replicate 20 (some 0)

lemma c6_code_val : e_folding_time (Real.exp 1) c6data = Except.ok 0 := by
  have hd : c6data.drop 20 = [some (0:ℝ)] := by
    show (some (2:ℝ) :: List.replicate 20 (some 0)).drop (19+1) = [some 0]
    rw [List.drop_succ_cons, List.drop_replicate]
    simp
  have hprep : prepSegment c6data = [0] := by
    rw [prepSegment, hd]
    simp
  rw [e_folding_time, hprep]
  simp only [decaySearch, List.foldl_nil]
  rw [find_nearest_singleton, List.drop_zero, find_nearest_singleton]

lemma c6_spec_val : e_folding_spec (Real.exp 1) c6data = Except.ok 1 := by
  have he2 : (2:ℝ) < Real.exp 1 := by
    have h1 := Real.exp_one_gt_d9
    have h2 : (2:ℝ) < 2.7182818283 := by norm_num
    linarith
  have hepos : (0:ℝ) < Real.exp 1 := Real.exp_pos 1
  have hdivlt : 2 / Real.exp 1 < 1 := by
    rw [div_lt_one hepos]
    linarith
  have hdivpos : (0:ℝ) < 2 / Real.exp 1 := div_pos (by norm_num) hepos
  rw [e_folding_spec, if_neg (by simp [c6data])]
  have hmap : c6data.map (fun c => c.getD 0) = 2 :: List.replicate 20 (0:ℝ) := by
    simp [c6data, List.map_replicate]
  rw [hmap]
  simp only [decaySearch]
  have hm : (List.replicate 20 (0:ℝ)).foldl max 2 = 2 :=
    foldl_max_eq 2 _ (by intro y hy; rw [List.eq_of_mem_replicate hy]; norm_num)
  rw [hm]
  have hxm : find_nearest (2 :: List.replicate 20 (0:ℝ)) 2 = 0 := by
    show argminIdx ((2 :: List.replicate 20 (0:ℝ)).map (fun x => |x - 2|)) = 0
    have h1 : |(2:ℝ) - 2| = 0 := by rw [sub_self, abs_zero]
    have h2 : |(0:ℝ) - 2| = 2 := by
      rw [zero_sub, abs_neg, abs_of_pos (by norm_num : (0:ℝ) < 2)]
    rw [List.map_cons, List.map_replicate, h1, h2]
    refine argminIdx_eq _ 0 0 (by simp) ?_ ?_
    · intro j hj
      cases j with
      | zero => exact le_refl _
      | succ k =>
        rw [List.getD_cons_zero, List.getD_cons_succ]
        have hk : k < 20 := by simp at hj; omega
        rw [getD_eq_getElem _ _ (by simpa using hk), List.getElem_replicate]
        norm_num
    · intro j hj
      exact absurd hj (Nat.not_lt_zero j)
  rw [hxm, List.drop_zero]
  have h3 : |(2:ℝ) - 2 / Real.exp 1| = 2 - 2 / Real.exp 1 := by
    rw [abs_of_pos]
    linarith
  have h4 : |(0:ℝ) - 2 / Real.exp 1| = 2 / Real.exp 1 := by
    rw [zero_sub, abs_neg, abs_of_pos hdivpos]
  have hba : 2 / Real.exp 1 < 2 - 2 / Real.exp 1 := by linarith
  have hxe : find_nearest (2 :: List.replicate 20 (0:ℝ)) (2 / Real.exp 1) = 1 := by
    show argminIdx ((2 :: List.replicate 20 (0:ℝ)).map
      (fun x => |x - 2 / Real.exp 1|)) = 1
    rw [List.map_cons, List.map_replicate, h3, h4]
    exact argminIdx_cons_replicate_of_lt (by norm_num) hba
  rw [hxe]

/-- Counterexample to claim C6 as stated: the estimator does not operate
purely on the index space of the segment it receives: on `c6data` the
source estimator discards the first 20 samples itself (returning offset 0),
while the spec component, which searches the whole received segment from
its first index, returns offset 1. -/
theorem spec_c6_counterexample :
    e_folding_time (Real.exp 1) c6data = Except.ok 0
    ∧ e_folding_spec (Real.exp 1) c6data = Except.ok 1
    ∧ e_folding_time (Real.exp 1) c6data ≠ e_folding_spec (Real.exp 1) c6data := by
  refine ⟨c6_code_val, c6_spec_val, ?_⟩
  rw [c6_code_val, c6_spec_val]
  simp

end EFolding

section Grids

/-- A 2-D numpy array with not-a-number-able cells, stored as rows. -/
abbrev Grid (α : Type) := List (List (Option α))

variable {α : Type} [LinearOrderedField α]

/-- Number of columns of a grid: the length of its first row (0 for an
empty grid); for the rectangular arrays of the scripts this is the second
component of the numpy shape. -/
def numCols {β : Type} (g : List (List β)) : ℕ :=
  match g with
  | [] => 0
  | r :: _ => r.length

/-- The numpy shape of a 2-D array. -/
def shape {β : Type} (g : List (List β)) : ℕ × ℕ := (g.length, numCols g)

/-- Rectangularity: every row has the common column count. -/
def wellFormed {β : Type} (g : List (List β)) : Prop :=
  ∀ r ∈ g, r.length = numCols g

instance {β : Type} (g : List (List β)) : Decidable (wellFormed g) :=
  decidable_of_iff (∀ r ∈ g, r.length = numCols g) Iff.rfl

instance {ε γ : Type} [DecidableEq ε] [DecidableEq γ] : DecidableEq (Except ε γ) := fun x y =>
  match x, y with
  | .ok a, .ok b =>
    if h : a = b then isTrue (h ▸ rfl) else isFalse (fun hc => h (Except.ok.inj hc))
  | .error a, .error b =>
    if h : a = b then isTrue (h ▸ rfl) else isFalse (fun hc => h (Except.error.inj hc))
  | .ok _, .error _ => isFalse (fun hc => Except.noConfusion hc)
  | .error _, .ok _ => isFalse (fun hc => Except.noConfusion hc)

/-- Cell access with a default for out-of-range indices. -/
def get2 {β : Type} (g : List (List β)) (d : β) (i j : ℕ) : β :=
  (((g[i]?).getD [])[j]?).getD d

/-- Cell `(i, j)` of a grid; an out-of-range access reads as not-a-number
(never reached on the rectangular in-range accesses of the scripts). -/
def getCell (g : Grid α) (i j : ℕ) : Option α :=
  get2 g none i j

/-- Mask construction (src/Figure4.py lines 57-58, src/Figure7.py lines
57-60, src/Figure8.py lines 43-47): `mask = np.ones(shape)` followed by
`mask[np.isnan(ref)] = np.nan`, so the mask is 1 where the reference cell
is a number and not-a-number where it is not.  The hardcoded `(181, 366)`
shape of the source equals the reference shape at every call site, so the
mask is built on the shape of the reference. -/
def buildMask (ref : Grid α) : Grid α :=
  ref.map (fun r => r.map (fun c =>
    match c with
    | none => none
    | some _ => some 1))

/-- Elementwise float product with not-a-number propagation: the product of
two numbers is a number, any operand that is not-a-number poisons the
result. -/
def cellMul : Option α → Option α → Option α
  | some a, some b => some (a * b)
  | _, _ => none

/-- 2-D numpy broadcast compatibility of two shapes: in each dimension the
sizes must be equal or one of them must be 1. -/
def broadcastOK (s t : ℕ × ℕ) : Bool :=
  ((s.1 == t.1) || (s.1 == 1) || (t.1 == 1))
    && ((s.2 == t.2) || (s.2 == 1) || (t.2 == 1))

/-- The numpy elementwise product `A * B` of two 2-D arrays:
broadcast-incompatible shapes raise a ValueError (the failure the spec
names ShapeMismatch); compatible shapes broadcast, a dimension of size 1
being repeated along the larger one. -/
def npMul (A B : Grid α) : Except String (Grid α) :=
  if broadcastOK (shape A) (shape B) then
    .ok ((List.range (max (shape A).1 (shape B).1)).map (fun i =>
      (List.range (max (shape A).2 (shape B).2)).map (fun j =>
        cellMul
          (getCell A (if (shape A).1 = 1 then 0 else i)
            (if (shape A).2 = 1 then 0 else j))
          (getCell B (if (shape B).1 = 1 then 0 else i)
            (if (shape B).2 = 1 then 0 else j)))))
  else .error "ShapeMismatch"

/-- The cross-grid masking operation of section 4.2 of the spec as the
source realises it (`so2_ash_omps_limits = so2_ash_omps*mask`,
src/Figure4.py lines 57-62): build the mask from the reference and multiply
it elementwise into the target. -/
def maskedProduct (target ref : Grid α) : Except String (Grid α) :=
  npMul target (buildMask ref)

/-- `mask510` (src/Figure8.py lines 43-44): the mask built from the 510 nm
observation field. -/
def mask510 (omps_510 : Grid α) : Grid α := buildMask omps_510

/-- `mask869` (src/Figure8.py lines 46-47): the mask built from the 869 nm
observation field. -/
def mask869 (omps_869 : Grid α) : Grid α := buildMask omps_869

/-- `so2_only_865_masked` (src/Figure8.py line 54): the 865 nm SO2only model
field is multiplied by `mask510`, the mask of the 510 nm observations. -/
def so2_only_865_masked (so2_only_865 omps_510 : Grid α) : Except String (Grid α) :=
  npMul so2_only_865 (mask510 omps_510)

/-- `so2_ash_865_masked` (src/Figure8.py line 51): the 865 nm SO2+ash model
field is multiplied by `mask869`, the mask of the 869 nm observations. -/
def so2_ash_865_masked (so2_ash_865 omps_869 : Grid α) : Except String (Grid α) :=
  npMul so2_ash_865 (mask869 omps_869)

/-- The valid-data support of a grid: `true` exactly at the cells that are
numbers. -/
def validPattern (g : Grid α) : List (List Bool) :=
  g.map (fun r => r.map Option.isSome)

lemma if_one_idx (n i : ℕ) (h : i < n) : (if n = 1 then 0 else i) = i := by
  split <;> omega

lemma shape_buildMask (r : Grid α) : shape (buildMask r) = shape r := by
  rcases r with _ | ⟨row, rest⟩ <;> simp [buildMask, shape, numCols]

lemma get2_eq {β : Type} (g : List (List β)) (d : β) (i j : ℕ)
    (hi : i < g.length) (hj : j < g[i].length) : get2 g d i j = g[i][j] := by
  rw [get2, List.getElem?_eq_getElem hi]
  simp only [Option.getD_some]
  rw [List.getElem?_eq_getElem hj, Option.getD_some]

lemma getCell_eq (g : Grid α) (i j : ℕ) (hi : i < g.length)
    (hj : j < g[i].length) : getCell g i j = g[i][j] :=
  get2_eq g none i j hi hj

lemma getCell_buildMask (r : Grid α) (i j : ℕ) :
    getCell (buildMask r) i j
      = match getCell r i j with
        | none => none
        | some _ => some 1 := by
  rw [getCell, getCell, get2, get2, buildMask, List.getElem?_map]
  cases hri : r[i]? with
  | none => simp
  | some row =>
    simp only [Option.map_some', Option.getD_some]
    rw [List.getElem?_map]
    cases hrj : row[j]? with
    | none => simp
    | some c => cases c <;> simp

lemma getCell_mk (F : ℕ → ℕ → Option α) (R C i j : ℕ) (hi : i < R) (hj : j < C) :
    getCell ((List.range R).map (fun i => (List.range C).map (fun j => F i j))) i j
      = F i j := by
  rw [getCell, get2, List.getElem?_map, List.getElem?_range hi]
  simp only [Option.map_some', Option.getD_some]
  rw [List.getElem?_map, List.getElem?_range hj]
  simp

lemma npMul_eq_of_shape_eq (A B : Grid α) (hs : shape A = shape B) :
    npMul A B = .ok ((List.range A.length).map (fun i =>
      (List.range (numCols A)).map (fun j =>
        cellMul
          (getCell A (if A.length = 1 then 0 else i) (if numCols A = 1 then 0 else j))
          (getCell B (if A.length = 1 then 0 else i) (if numCols A = 1 then 0 else j))))) := by
  have hb1 : (shape B).1 = (shape A).1 := by rw [hs]
  have hb2 : (shape B).2 = (shape A).2 := by rw [hs]
  rw [npMul, if_pos (by rw [hs]; simp [broadcastOK]), hb1, hb2, max_self, max_self]
  rfl

/-- Claim C3: on same-shape operands the masked output is the elementwise
product of the target with the mask built from the reference: every cell at
which the reference is not a number becomes not-a-number, every other cell
is unchanged from the target, and a reference that is valid everywhere
returns the target unchanged. -/
theorem spec_c3 {α : Type} [LinearOrderedField α] (t r : Grid α)
    (hwt : wellFormed t) (hs : shape t = shape r) :
    ∃ out, maskedProduct t r = .ok out
      ∧ (∀ i j, i < t.length → j < numCols t →
          getCell out i j
            = if (getCell r i j).isSome then getCell t i j else none)
      ∧ ((∀ i j, i < t.length → j < numCols t → (getCell r i j).isSome = true) →
          out = t) := by
  have hs2 : shape t = shape (buildMask r) := by rw [shape_buildMask, hs]
  refine ⟨_, by rw [maskedProduct]; exact npMul_eq_of_shape_eq t (buildMask r) hs2, ?_, ?_⟩
  · intro i j hi hj
    rw [getCell_mk _ _ _ i j hi hj, if_one_idx _ _ hi, if_one_idx _ _ hj,
      getCell_buildMask]
    cases hrc : getCell r i j with
    | none => cases htc : getCell t i j <;> simp [cellMul]
    | some v =>
      cases htc : getCell t i j with
      | none => simp [cellMul]
      | some w => simp [cellMul, mul_one]
  · intro hvalid
    apply List.ext_getElem
    · simp
    · intro i h1 h2
      simp only [List.getElem_map, List.getElem_range]
      apply List.ext_getElem
      · simp only [List.length_map, List.length_range]
        exact (hwt _ (List.getElem_mem _)).symm
      · intro j hj1 hj2
        simp only [List.getElem_map, List.getElem_range]
        have hi : i < t.length := h2
        have hjc : j < numCols t := by simpa using hj1
        rw [if_one_idx _ _ hi, if_one_idx _ _ hjc, getCell_buildMask]
        have hcr := hvalid i j hi hjc
        obtain ⟨v, hv⟩ := Option.isSome_iff_exists.mp hcr
        rw [hv, getCell_eq t i j hi hj2]
        cases htc : t[i][j] with
        | none => simp [cellMul]
        | some w => simp [cellMul, mul_one]

/-- Witness for C3 on concrete 1 by 2 grids: the cell with a valid
reference keeps the target value, the other becomes not-a-number. -/
theorem spec_c3_witness :
    ∃ out, maskedProduct ([[some (3:ℚ), some 4]] : Grid ℚ) [[some 1, none]] = .ok out
      ∧ getCell out 0 0 = some 3 ∧ getCell out 0 1 = none := by
  obtain ⟨out, hok, hcell, -⟩ :=
    spec_c3 ([[some (3:ℚ), some 4]] : Grid ℚ) [[some 1, none]] (by decide) (by decide)
  refine ⟨out, hok, ?_, ?_⟩
  · rw [hcell 0 0 (by decide) (by decide)]
    decide
  · rw [hcell 0 1 (by decide) (by decide)]
    decide

/-- Counterexample to claim C4 as stated: a target of shape (1, 1) and a
reference of shape (2, 1) have different shapes, yet the masking operation
raises no error: numpy silently broadcasts the target along the larger
dimension and produces a (2, 1) result. -/
theorem spec_c4_counterexample :
    shape ([[some (2:ℚ)]] : Grid ℚ) ≠ shape ([[some 1], [none]] : Grid ℚ)
    ∧ maskedProduct ([[some (2:ℚ)]] : Grid ℚ) [[some 1], [none]]
        = .ok [[some 2], [none]] := by
  constructor
  · decide
  · have hbm : buildMask ([[some (1:ℚ)], [none]] : Grid ℚ) = [[some 1], [none]] := rfl
    have hr2 : List.range 2 = [0, 1] := by decide
    have hr1 : List.range 1 = [0] := by decide
    show npMul ([[some (2:ℚ)]] : Grid ℚ) (buildMask [[some 1], [none]]) = .ok [[some 2], [none]]
    rw [hbm]
    unfold npMul
    rw [if_pos (by decide)]
    rw [show (max (shape ([[some (2:ℚ)]] : Grid ℚ)).1
          (shape ([[some (1:ℚ)], [none]] : Grid ℚ)).1) = 2 from rfl,
        show (max (shape ([[some (2:ℚ)]] : Grid ℚ)).2
          (shape ([[some (1:ℚ)], [none]] : Grid ℚ)).2) = 1 from rfl,
        hr2, hr1]
    simp [getCell, get2, cellMul, shape, numCols]

/-- Claim C4 (amended): the masking operation fails with the ShapeMismatch
error exactly on operands whose shapes are not numpy-broadcast-compatible;
differing but broadcast-compatible shapes are silently broadcast instead of
raising. -/
theorem spec_c4 {α : Type} [LinearOrderedField α] (t r : Grid α)
    (h : broadcastOK (shape t) (shape r) = false) :
    maskedProduct t r = .error "ShapeMismatch" := by
  rw [maskedProduct, npMul, shape_buildMask, if_neg (by simp [h])]

/-- Witness for the amended C4: shapes (2, 1) and (3, 1) are not
broadcast-compatible and the masking raises. -/
theorem spec_c4_witness :
    maskedProduct ([[some (1:ℚ)], [some 1]] : Grid ℚ) [[some 1], [some 1], [some 1]]
      = .error "ShapeMismatch" :=
  spec_c4 _ _ (by decide)

lemma masked_validPattern (m ref : Grid α) (hwref : wellFormed ref)
    (hwm : wellFormed m) (hs : shape m = shape ref)
    (hv : ∀ row ∈ m, ∀ c ∈ row, c.isSome = true) :
    ∃ g, npMul m (buildMask ref) = .ok g ∧ validPattern g = validPattern ref := by
  have hlen : m.length = ref.length := congrArg Prod.fst hs
  have hcols : numCols m = numCols ref := congrArg Prod.snd hs
  have hs2 : shape m = shape (buildMask ref) := by rw [shape_buildMask, hs]
  refine ⟨_, npMul_eq_of_shape_eq m (buildMask ref) hs2, ?_⟩
  rw [validPattern, validPattern, List.map_map]
  apply List.ext_getElem
  · simp [hlen]
  · intro i h1 h2
    have hiref : i < ref.length := by simpa using h2
    have him : i < m.length := by omega
    simp only [List.getElem_map, List.getElem_range, Function.comp_apply]
    apply List.ext_getElem
    · simp only [List.length_map, List.length_range]
      rw [hcols, hwref _ (List.getElem_mem _)]
    · intro j hj1 hj2
      simp only [List.getElem_map, List.getElem_range]
      have hjm : j < numCols m := by simpa using hj1
      have hjref : j < ref[i].length := by simpa using hj2
      rw [if_one_idx _ _ him, if_one_idx _ _ hjm, getCell_buildMask]
      have hmij : j < m[i].length := by
        rw [hwm _ (List.getElem_mem _)]
        exact hjm
      rw [getCell_eq m i j him hmij, getCell_eq ref i j hiref hjref]
      have hv' := hv m[i] (List.getElem_mem _) m[i][j] (List.getElem_mem _)
      obtain ⟨w, hw⟩ := Option.isSome_iff_exists.mp hv'
      rw [hw]
      cases hx : ref[i][j] with
      | none => simp [cellMul]
      | some v => simp [cellMul]

/-- Claim C9: in the Figure 8 wiring the 865 nm SO2only model field is
masked with `mask510` (built from the 510 nm observations) while the 865 nm
SO2+ash model field is masked with `mask869` (built from the 869 nm
observations); hence whenever the two observation fields have different
not-a-number patterns, the two masked 865 nm model variants have different
valid-data supports and are averaged over different supports. -/
theorem spec_c9 {α : Type} [LinearOrderedField α] (o510 o869 mOnly mAsh : Grid α)
    (hw510 : wellFormed o510) (hw869 : wellFormed o869)
    (hwOnly : wellFormed mOnly) (hwAsh : wellFormed mAsh)
    (hs1 : shape mOnly = shape o510) (hs2 : shape mAsh = shape o869)
    (hv1 : ∀ row ∈ mOnly, ∀ c ∈ row, c.isSome = true)
    (hv2 : ∀ row ∈ mAsh, ∀ c ∈ row, c.isSome = true)
    (hdiff : validPattern o510 ≠ validPattern o869) :
    ∃ g1 g2, so2_only_865_masked mOnly o510 = .ok g1
      ∧ so2_ash_865_masked mAsh o869 = .ok g2
      ∧ validPattern g1 ≠ validPattern g2 := by
  obtain ⟨g1, h1, hp1⟩ := masked_validPattern mOnly o510 hw510 hwOnly hs1 hv1
  obtain ⟨g2, h2, hp2⟩ := masked_validPattern mAsh o869 hw869 hwAsh hs2 hv2
  refine ⟨g1, g2, ?_, ?_, ?_⟩
  · rw [so2_only_865_masked, mask510]; exact h1
  · rw [so2_ash_865_masked, mask869]; exact h2
  · rw [hp1, hp2]; exact hdiff

/-- Witness for C9 on concrete 1 by 2 grids whose observation patterns
differ in both cells. -/
theorem spec_c9_witness :
    ∃ g1 g2, so2_only_865_masked ([[some (1:ℚ), some 1]] : Grid ℚ) [[some 1, none]] = .ok g1
      ∧ so2_ash_865_masked ([[some (1:ℚ), some 1]] : Grid ℚ) [[none, some 1]] = .ok g2
      ∧ validPattern g1 ≠ validPattern g2 :=
  spec_c9 [[some 1, none]] [[none, some 1]] [[some 1, some 1]] [[some 1, some 1]]
    (by decide) (by decide) (by decide) (by decide) (by decide) (by decide)
    (by decide) (by decide) (by decide)

end Grids
